import Mathlib

/-!
Shallow embedding of `k8sinterface/k8sdiscovery.go` (armosec/k8s-interface).

The Go package keeps three package-level variables (`ResourceGroupMapping`,
`ResourceNamesapcedScope`, `ResourceClusterScope`); here they are gathered in
an explicit `RegistryState` record that is threaded through every function.
Go maps are modelled as association lists with first-match lookup and
insert-only-if-absent (exactly the discipline the source follows), Go slices
as lists, and the few `strings` library calls (`ToLower`, `HasSuffix`,
`TrimSuffix`, `Split`, `Contains`) are embedded at the `List Char` level with
their Go semantics (`ToLower` is restricted to ASCII case mapping, which is
all the package's inputs exercise).
-/

/-- Embedding of `schema.GroupVersion` (k8s.io/apimachinery). -/
structure GroupVersion where
  Group : String
  Version : String
deriving DecidableEq, Repr

/-- Embedding of `schema.GroupVersionResource` (k8s.io/apimachinery). -/
structure GroupVersionResource where
  Group : String
  Version : String
  Resource : String
deriving DecidableEq, Repr

/-- Embedding of the fields of `metav1.APIResource` that the source reads. -/
structure APIResource where
  Name : String
  Namespaced : Bool
  Verbs : List String
deriving DecidableEq, Repr

/-- Embedding of the fields of `metav1.APIResourceList` that the source reads. -/
structure APIResourceList where
  GroupVersion : String
  APIResources : List APIResource
deriving DecidableEq, Repr

/-- The three package-level variables of `k8sdiscovery.go`, as one record. -/
structure RegistryState where
  ResourceGroupMapping : List (String × String)
  ResourceNamesapcedScope : List String
  ResourceClusterScope : List String
deriving DecidableEq, Repr

/-- The empty registry (all three package variables at their initial values). -/
def emptyRegistry : RegistryState := ⟨[], [], []⟩

/-- Go map read `m[k]`: first binding of the key, if any. -/
def lookupGo {α : Type} (m : List (String × α)) (k : String) : Option α :=
  (m.find? (fun p => p.1 == k)).map (fun p => p.2)

/-- Embedding of Go `strings.ToLower` (ASCII case mapping). -/
def goToLower (s : String) : String :=
  String.mk (s.data.map Char.toLower)

/-- Embedding of Go `strings.HasSuffix`. -/
def goHasSuffix (s suffix : String) : Bool :=
  suffix.data.isSuffixOf s.data

/-- Embedding of Go `strings.TrimSuffix`. -/
def goTrimSuffix (s suffix : String) : String :=
  if goHasSuffix s suffix then String.mk (s.data.take (s.data.length - suffix.data.length))
  else s

/-- Embedding of Go `strings.Split(s, "/")`. -/
def goSplitSlash (s : String) : List String :=
  (s.data.splitOn '/').map (fun l => String.mk l)

/-- Auxiliary for `containsSub`: does the pattern occur in the list? -/
def containsSubAux (p : List Char) : List Char → Bool
  | [] => p.isEmpty
  | c :: t => p.isPrefixOf (c :: t) || containsSubAux p t

/-- Embedding of Go `strings.Contains s pat`. -/
def containsSub (s pat : String) : Bool :=
  containsSubAux pat.data s.data

/-- Source constant `ValueNotFound = -1`. -/
def ValueNotFound : Int := -1

/-- Auxiliary loop of `StringInSlice`, carrying the current index. -/
def StringInSliceAux (str : String) : List String → Nat → Int
  | [], _ => ValueNotFound
  | x :: xs, i => if x = str then (i : Int) else StringInSliceAux str xs (i + 1)

/-- Embedding of `StringInSlice`: index of `str` in `strSlice`, `-1` if absent. -/
def StringInSlice (strSlice : List String) (str : String) : Int :=
  StringInSliceAux str strSlice 0

/-- Embedding of `JoinGroupVersion`. -/
def JoinGroupVersion (group version : String) : String :=
  group ++ "/" ++ version

/-- Embedding of `JoinResourceTriplets`. -/
def JoinResourceTriplets (group version resource : String) : String :=
  group ++ "/" ++ version ++ "/" ++ resource

/-- Embedding of `GroupVersionResourceToString`. -/
def GroupVersionResourceToString (resource : GroupVersionResource) : String :=
  JoinResourceTriplets resource.Group resource.Version resource.Resource

/-- Embedding of `updateResourceKind`: lower-case, then pluralize unless the
name is empty or already ends in an `s` (`y` becomes `ies`). -/
def updateResourceKind (resource : String) : String :=
  let r := goToLower resource
  if r ≠ "" ∧ goHasSuffix r ("s") = false then
    if goHasSuffix r ("y") then goTrimSuffix r ("y") ++ "ies"
    else r ++ "s"
  else r

/-- Embedding of `GetGroupVersionResource`: normalize the name, look it up in
`ResourceGroupMapping`, fall back to the empty/wildcard sentinel, else error. -/
def GetGroupVersionResource (st : RegistryState) (resource : String) :
    Except String GroupVersionResource :=
  let r := updateResourceKind resource
  match lookupGo st.ResourceGroupMapping r with
  | some gvs =>
    match goSplitSlash gvs with
    | g :: v :: _ => Except.ok ⟨g, v, r⟩
    | _ =>
      if r = "" ∨ r = "*" then Except.ok ⟨"", "", ""⟩
      else Except.error ("resource '" ++ r ++ "' unknown. Make sure the resource is found at `kubectl api-resources`")
  | none =>
    if r = "" ∨ r = "*" then Except.ok ⟨"", "", ""⟩
    else Except.error ("resource '" ++ r ++ "' unknown. Make sure the resource is found at `kubectl api-resources`")

/-- Embedding of `IsKindKubernetes`. -/
def IsKindKubernetes (st : RegistryState) (kind : String) : Bool :=
  match GetGroupVersionResource st kind with
  | Except.ok _ => true
  | Except.error _ => false

/-- Embedding of `IsNamespaceScope`.  The source calls
`GetGroupVersionResource(resource.Resource)` and discards both results; the
discarded call is kept as a dead `let`. -/
def IsNamespaceScope (st : RegistryState) (resource : GroupVersionResource) : Bool :=
  let _ := GetGroupVersionResource st resource.Resource
  StringInSlice st.ResourceNamesapcedScope (GroupVersionResourceToString resource) != ValueNotFound

/-- Embedding of `IsResourceInNamespaceScope`. -/
def IsResourceInNamespaceScope (st : RegistryState) (resource : String) : Bool :=
  match GetGroupVersionResource st resource with
  | Except.error _ => false
  | Except.ok gvr => IsNamespaceScope st gvr

/-- Embedding of `getResourceTriplets`. -/
def getResourceTriplets (st : RegistryState) (group version resource : String) : List String :=
  if resource = "" then
    st.ResourceGroupMapping.foldl
      (fun acc kv =>
        match goSplitSlash kv.2 with
        | g :: v :: _ => acc ++ [JoinResourceTriplets g v kv.1]
        | _ => acc) []
  else if version = "" then
    match lookupGo st.ResourceGroupMapping resource with
    | some gvs =>
      match goSplitSlash gvs with
      | g :: v :: _ => [JoinResourceTriplets (if group = "" then g else group) v resource]
      | _ => []
    | none => []
  else if group = "" then
    match lookupGo st.ResourceGroupMapping resource with
    | some gvs =>
      match goSplitSlash gvs with
      | g :: _ => [JoinResourceTriplets g version resource]
      | _ => []
    | none => []
  else [JoinResourceTriplets group version resource]

/-- Embedding of `ResourceGroupToSlice`: rewrite `*` fields to empty, pass
non-Kubernetes kinds through literally, else normalize and expand. -/
def ResourceGroupToSlice (st : RegistryState) (group version resource : String) : List String :=
  let group := if group = "*" then "" else group
  let version := if version = "*" then "" else version
  let resource := if resource = "*" then "" else resource
  if IsKindKubernetes st resource = false then
    [JoinResourceTriplets group version resource]
  else getResourceTriplets st group version (updateResourceKind resource)

/-- Embedding of `StringToResourceGroup`. -/
def StringToResourceGroup (str : String) : String × String × String :=
  let splitted := (goSplitSlash str).map (fun x => if x = "*" then "" else x)
  match splitted with
  | [a, b, c] => (a, b, c)
  | _ => ("", "", "")

/-- Embedding of `ignoreGroups`. -/
def ignoreGroups : List String := ["metrics.k8s.io"]

/-- Embedding of `schema.ParseGroupVersion` (k8s.io/apimachinery), the parser
`setMapResources` applies to each `GroupVersion` string: empty or `/` give the
zero value, no slash gives a bare version, one slash splits there, more error. -/
def ParseGroupVersion (gv : String) : Except String GroupVersion :=
  if gv = "" ∨ gv = "/" then Except.ok ⟨"", ""⟩
  else
    match goSplitSlash gv with
    | [v] => Except.ok ⟨"", v⟩
    | [g, v] => Except.ok ⟨g, v⟩
    | _ => Except.error ("unexpected GroupVersion string: " ++ gv)

/-- Body of the inner loop of `setMapResources` over one `APIResource`. -/
def processAPIResource (group version : String) (st : RegistryState) (a : APIResource) :
    RegistryState :=
  if a.Verbs = [] then st
  else
    match lookupGo st.ResourceGroupMapping a.Name with
    | some _ => st
    | none =>
      { ResourceGroupMapping := st.ResourceGroupMapping ++ [(a.Name, JoinGroupVersion group version)]
        ResourceNamesapcedScope :=
          if a.Namespaced then st.ResourceNamesapcedScope ++ [JoinResourceTriplets group version a.Name]
          else st.ResourceNamesapcedScope
        ResourceClusterScope :=
          if a.Namespaced then st.ResourceClusterScope
          else st.ResourceClusterScope ++ [JoinResourceTriplets group version a.Name] }

/-- Body of the outer loop of `setMapResources` over one list entry (entries
are pointers in Go, hence `Option`). -/
def processResourceList (st : RegistryState) (entry : Option APIResourceList) : RegistryState :=
  match entry with
  | none => st
  | some rl =>
    if rl.APIResources = [] then st
    else
      match ParseGroupVersion rl.GroupVersion with
      | Except.error _ => st
      | Except.ok gv =>
        if StringInSlice ignoreGroups gv.Group ≠ ValueNotFound then st
        else rl.APIResources.foldl (processAPIResource gv.Group gv.Version) st

/-- Embedding of `setMapResources`. -/
def setMapResources (st : RegistryState) (resourceList : List (Option APIResourceList)) :
    RegistryState :=
  resourceList.foldl processResourceList st

/-- Untyped Go values, as far as `IsTypeWorkload` inspects them: the only
operation performed is the type assertion to `string`. -/
inductive GoValue where
  | str (s : String)
  | num (n : Int)
  | boolVal (b : Bool)
  | null
deriving DecidableEq, Repr

/-- Embedding of `IsTypeWorkload` over a possibly-nil untyped document. -/
def IsTypeWorkload (st : RegistryState) (object : Option (List (String × GoValue))) : Bool :=
  match object with
  | none => false
  | some m =>
    match lookupGo m ("apiVersion") with
    | none => false
    | some _ =>
      match lookupGo m ("kind") with
      | some (GoValue.str k) => IsKindKubernetes st k
      | _ => false

/-- The normalization routine as the spec's §4.2 words it (the comparison
definition for the claim that `updateResourceKind` computes exactly this):
lower-case; empty stays empty; a trailing `s` stays; a trailing `y` becomes
`ies`; otherwise append `s`. -/
def normalizeSpec (name : String) : String :=
  let l := goToLower name
  if l = "" then l
  else if goHasSuffix l ("s") then l
  else if goHasSuffix l ("y") then goTrimSuffix l ("y") ++ "ies"
  else l ++ "s"

/-- Provenance of a registry-map entry: it was contributed by a descriptor of
the snapshot whose group parsed, is not ignored, and has verbs. -/
def goodEntry (rl : List (Option APIResourceList)) (p : String × String) : Prop :=
  ∃ l, (some l) ∈ rl ∧ ∃ g v, ParseGroupVersion l.GroupVersion = Except.ok ⟨g, v⟩ ∧
    StringInSlice ignoreGroups g = ValueNotFound ∧
    ∃ a, a ∈ l.APIResources ∧ a.Verbs ≠ [] ∧ p = (a.Name, JoinGroupVersion g v)

/-- Provenance of a scope-set triple: it was contributed by a descriptor of
the snapshot whose group parsed, is not ignored, and has verbs. -/
def goodTriple (rl : List (Option APIResourceList)) (t : String) : Prop :=
  ∃ l, (some l) ∈ rl ∧ ∃ g v, ParseGroupVersion l.GroupVersion = Except.ok ⟨g, v⟩ ∧
    StringInSlice ignoreGroups g = ValueNotFound ∧
    ∃ a, a ∈ l.APIResources ∧ a.Verbs ≠ [] ∧ t = JoinResourceTriplets g v a.Name

example : updateResourceKind ("pod") = "pods" := by decide
example : updateResourceKind ("Deployment") = "deployments" := by decide
example : updateResourceKind ("networkpolicy") = "networkpolicies" := by decide
example : updateResourceKind ("*") = "*s" := by decide
example : GetGroupVersionResource ⟨[("pods", "/v1")], ["/v1/pods"], []⟩ ("pod") =
    Except.ok ⟨"", "v1", "pods"⟩ := by rfl
example : StringToResourceGroup ("apps/v1/deployments") = ("apps", "v1", "deployments") := by decide

/-! ### String-level helper lemmas -/

theorem string_eq_of_data {a b : String} (h : a.data = b.data) : a = b := by
  cases a; cases b; cases h; rfl

theorem char_toNat_ofNat_of_valid {n : Nat} (h : n.isValidChar) : (Char.ofNat n).toNat = n := by
  simp [Char.ofNat, h, Char.ofNatAux, Char.toNat, UInt32.toNat, BitVec.toNat_ofNatLt]

theorem char_toLower_toLower (c : Char) : c.toLower.toLower = c.toLower := by
  unfold Char.toLower
  by_cases h : c.toNat ≥ 65 ∧ c.toNat ≤ 90
  · simp only [if_pos h]
    have hv : (c.toNat + 32).isValidChar := Or.inl (by omega)
    have ht : (Char.ofNat (c.toNat + 32)).toNat = c.toNat + 32 := char_toNat_ofNat_of_valid hv
    rw [ht]
    rw [if_neg (by omega)]
  · simp only [if_neg h]

theorem map_toLower_idem (l : List Char) :
    (l.map Char.toLower).map Char.toLower = l.map Char.toLower := by
  induction l with
  | nil => rfl
  | cons c t ih => simp [char_toLower_toLower, ih]

theorem goToLower_data (s : String) : (goToLower s).data = s.data.map Char.toLower := rfl

theorem goToLower_idem (s : String) : goToLower (goToLower s) = goToLower s :=
  congrArg String.mk (map_toLower_idem s.data)

theorem goToLower_fix_data {s : String} (hs : goToLower s = s) :
    s.data.map Char.toLower = s.data := congrArg String.data hs

theorem goToLower_fix_append {u v : String} (hu : goToLower u = u) (hv : goToLower v = v) :
    goToLower (u ++ v) = u ++ v := by
  apply string_eq_of_data
  show ((u ++ v).data).map Char.toLower = (u ++ v).data
  simp [String.data_append, goToLower_fix_data hu, goToLower_fix_data hv]

theorem goToLower_fix_take {s : String} (hs : goToLower s = s) (k : Nat) :
    goToLower (String.mk (s.data.take k)) = String.mk (s.data.take k) := by
  apply string_eq_of_data
  show (s.data.take k).map Char.toLower = s.data.take k
  rw [List.map_take, goToLower_fix_data hs]

theorem goHasSuffix_of_suffix {t u : String} (h : u.data <:+ t.data) :
    goHasSuffix t u = true := by
  simpa [goHasSuffix, List.isSuffixOf_iff_suffix] using h

theorem goTrimSuffix_pos {s u : String} (h : goHasSuffix s u = true) :
    goTrimSuffix s u = String.mk (s.data.take (s.data.length - u.data.length)) := by
  simp [goTrimSuffix, h]

/-- Every output of `updateResourceKind` is lower-case-fixed and is either
empty or ends in `s`. -/
theorem updateResourceKind_fixed (x : String) :
    goToLower (updateResourceKind x) = updateResourceKind x ∧
    (updateResourceKind x = "" ∨ goHasSuffix (updateResourceKind x) ("s") = true) := by
  unfold updateResourceKind
  by_cases hc : goToLower x ≠ "" ∧ goHasSuffix (goToLower x) ("s") = false
  · rw [if_pos hc]
    by_cases hy : goHasSuffix (goToLower x) ("y") = true
    · rw [if_pos hy]
      constructor
      · apply goToLower_fix_append
        · rw [goTrimSuffix_pos hy]
          exact goToLower_fix_take (goToLower_idem x) _
        · decide
      · right
        apply goHasSuffix_of_suffix
        have h1 : ("s" : String).data <:+ ("ies" : String).data := ⟨['i', 'e'], by decide⟩
        have h2 : ("ies" : String).data <:+ (goTrimSuffix (goToLower x) ("y") ++ "ies").data := by
          rw [String.data_append]
          exact List.suffix_append _ _
        exact h1.trans h2
    · rw [if_neg hy]
      constructor
      · exact goToLower_fix_append (goToLower_idem x) (by decide)
      · right
        apply goHasSuffix_of_suffix
        rw [String.data_append]
        exact List.suffix_append _ _
  · rw [if_neg hc]
    refine ⟨goToLower_idem x, ?_⟩
    rcases Decidable.not_and_iff_or_not.mp hc with h | h
    · exact Or.inl (Decidable.not_not.mp h)
    · exact Or.inr (by simpa using h)

theorem updateResourceKind_of_fixed {w : String} (h1 : goToLower w = w)
    (h2 : w = "" ∨ goHasSuffix w ("s") = true) : updateResourceKind w = w := by
  rcases h2 with h | h
  · subst h
    decide
  · unfold updateResourceKind
    simp [h1, h]

/-- C3: `updateResourceKind` computes exactly the spec's normalization rules
(lower-case the input; keep a trailing `s`; turn a trailing `y` into `ies`;
otherwise append `s`; the empty string is returned unchanged), and in
particular reproduces the spec's five examples. -/
theorem updateResourceKind_matches_spec :
    (∀ x, updateResourceKind x = normalizeSpec x) ∧
    updateResourceKind ("pod") = "pods" ∧
    updateResourceKind ("Deployment") = "deployments" ∧
    updateResourceKind ("networkpolicy") = "networkpolicies" ∧
    updateResourceKind ("pods") = "pods" ∧
    updateResourceKind ("") = "" := by
  refine ⟨?_, by decide, by decide, by decide, by decide, by decide⟩
  intro x
  unfold updateResourceKind normalizeSpec
  by_cases h0 : goToLower x = ""
  · simp [h0]
  · by_cases hs : goHasSuffix (goToLower x) ("s") = true
    · simp [h0, hs]
    · by_cases hy : goHasSuffix (goToLower x) ("y") = true
      · simp [h0, hs, hy]
      · simp [h0, hs, hy]

/-- C9: normalization is idempotent — applying `updateResourceKind` twice
gives the same result as applying it once, for every input string. -/
theorem updateResourceKind_idem (x : String) :
    updateResourceKind (updateResourceKind x) = updateResourceKind x :=
  updateResourceKind_of_fixed (updateResourceKind_fixed x).1 (updateResourceKind_fixed x).2

theorem StringInSliceAux_eq_negOne_iff (str : String) (l : List String) (i : Nat) :
    StringInSliceAux str l i = ValueNotFound ↔ str ∉ l := by
  induction l generalizing i with
  | nil => simp [StringInSliceAux]
  | cons x xs ih =>
    by_cases hx : x = str
    · subst hx
      have hL : ((i : Int) = ValueNotFound) = False := by
        simp only [ValueNotFound, eq_iff_iff, iff_false]
        omega
      simp [StringInSliceAux, hL]
    · simp only [StringInSliceAux, if_neg hx, ih, List.mem_cons]
      have : ¬ str = x := fun h => hx h.symm
      simp [this]

theorem StringInSlice_ne_iff (l : List String) (s : String) :
    StringInSlice l s ≠ ValueNotFound ↔ s ∈ l := by
  unfold StringInSlice
  constructor
  · intro h
    by_contra hm
    exact h ((StringInSliceAux_eq_negOne_iff s l 0).mpr hm)
  · intro hm h
    exact ((StringInSliceAux_eq_negOne_iff s l 0).mp h) hm

/-- C10: `IsNamespaceScope` depends only on the literal triple: it returns
true exactly when the joined `group/version/resource` string is a member of
the namespaced-scope list, and the internal (discarded) re-resolution has no
effect — in particular the singular triple `("", "v1", "pod")` is false even
when `/v1/pods` is registered as namespaced. -/
theorem IsNamespaceScope_literal_membership :
    (∀ (st : RegistryState) (gvr : GroupVersionResource),
      IsNamespaceScope st gvr = true ↔
        GroupVersionResourceToString gvr ∈ st.ResourceNamesapcedScope) ∧
    IsNamespaceScope ⟨[("pods", "/v1")], ["/v1/pods"], []⟩ ⟨"", "v1", "pod"⟩ = false := by
  refine ⟨?_, by decide⟩
  intro st gvr
  show (StringInSlice st.ResourceNamesapcedScope (GroupVersionResourceToString gvr)
      != ValueNotFound) = true ↔ _
  rw [bne_iff_ne]
  exact StringInSlice_ne_iff _ _

/-- C1 (evaluation at the failing input): the wildcard is pluralized to `*s`
by `updateResourceKind` before the sentinel comparison, so the wildcard query
errors and `IsKindKubernetes` rejects it, while the empty string does reach
the sentinel and returns the zero triple. -/
theorem wildcard_sentinel_eval :
    GetGroupVersionResource ⟨[("pods", "/v1")], ["/v1/pods"], []⟩ ("*") =
      Except.error ("resource '*s' unknown. Make sure the resource is found at `kubectl api-resources`") ∧
    IsKindKubernetes ⟨[("pods", "/v1")], ["/v1/pods"], []⟩ ("*") = false ∧
    GetGroupVersionResource ⟨[("pods", "/v1")], ["/v1/pods"], []⟩ ("") =
      Except.ok ⟨"", "", ""⟩ :=
  ⟨by rfl, by decide, by rfl⟩

theorem isPrefixOf_append_self (p r : List Char) : p.isPrefixOf (p ++ r) = true := by
  rw [List.isPrefixOf_iff_prefix]
  exact List.prefix_append _ _

theorem containsSubAux_of_here (p r : List Char) : containsSubAux p (p ++ r) = true := by
  cases h : p ++ r with
  | nil =>
    have hp : p = [] := by cases p <;> simp_all
    simp [containsSubAux, hp]
  | cons c t =>
    have : p.isPrefixOf (c :: t) = true := h ▸ isPrefixOf_append_self p r
    simp [containsSubAux, this]

theorem containsSubAux_append_left (p pre l : List Char) (h : containsSubAux p l = true) :
    containsSubAux p (pre ++ l) = true := by
  induction pre with
  | nil => simpa using h
  | cons c t ih => simp [containsSubAux, ih]

theorem containsSub_middle (pre pat post : String) :
    containsSub (pre ++ (pat ++ post)) pat = true := by
  unfold containsSub
  rw [String.data_append, String.data_append]
  exact containsSubAux_append_left _ _ _ (containsSubAux_of_here _ _)

/-- C2 (amended): a lookup whose normalized name is neither a registry key,
nor empty, nor the wildcard token, fails with the unknown-resource error; the
error carries the normalized form of the requested name and its message
references kubectl api-resources. -/
theorem unknownResource_error (st : RegistryState) (x : String)
    (hmap : lookupGo st.ResourceGroupMapping (updateResourceKind x) = none)
    (hne : updateResourceKind x ≠ "")
    (hnw : updateResourceKind x ≠ "*") :
    GetGroupVersionResource st x =
      Except.error ("resource '" ++ updateResourceKind x ++ "' unknown. Make sure the resource is found at `kubectl api-resources`") ∧
    containsSub ("resource '" ++ updateResourceKind x ++ "' unknown. Make sure the resource is found at `kubectl api-resources`") ("kubectl api-resources") = true := by
  constructor
  · unfold GetGroupVersionResource
    simp only [hmap]
    simp [hne, hnw]
  · have hsplit :
        ("' unknown. Make sure the resource is found at `kubectl api-resources`" : String) =
          "' unknown. Make sure the resource is found at `" ++ ("kubectl api-resources" ++ "`") := by
      decide
    rw [hsplit, ← String.append_assoc]
    exact containsSub_middle _ _ _

/-- C2 witness: the never-registered name `frobnicator` fails as the amended
claim states. -/
theorem unknownResource_error_witness :
    GetGroupVersionResource emptyRegistry ("frobnicator") =
      Except.error ("resource '" ++ updateResourceKind ("frobnicator") ++ "' unknown. Make sure the resource is found at `kubectl api-resources`") ∧
    containsSub ("resource '" ++ updateResourceKind ("frobnicator") ++ "' unknown. Make sure the resource is found at `kubectl api-resources`") ("kubectl api-resources") = true :=
  unknownResource_error emptyRegistry ("frobnicator") (by rfl) (by decide) (by decide)

/-- C2 (counterexample to the claim as stated): for the request
`networkpolicy` the error message carries only the normalized plural
`networkpolicies`; the requested name itself does not occur in the message. -/
theorem unknownResource_requested_name_cex :
    GetGroupVersionResource emptyRegistry ("networkpolicy") =
      Except.error ("resource 'networkpolicies' unknown. Make sure the resource is found at `kubectl api-resources`") ∧
    containsSub ("resource 'networkpolicies' unknown. Make sure the resource is found at `kubectl api-resources`") ("networkpolicy") = false :=
  ⟨by rfl, by decide⟩

theorem mk_data (s : String) : String.mk s.data = s := rfl

theorem goSplitSlash_join (g v r : String)
    (hg : ('/' : Char) ∉ g.data) (hv : ('/' : Char) ∉ v.data) (hr : ('/' : Char) ∉ r.data) :
    goSplitSlash (JoinResourceTriplets g v r) = [g, v, r] := by
  unfold goSplitSlash JoinResourceTriplets
  have hdata : (g ++ "/" ++ v ++ "/" ++ r).data =
      [('/' : Char)].intercalate [g.data, v.data, r.data] := by
    simp [String.data_append, List.intercalate, List.intersperse]
  rw [hdata, List.splitOn_intercalate]
  · simp [mk_data]
  · intro l hl
    simp only [List.mem_cons, List.not_mem_nil, or_false] at hl
    rcases hl with rfl | rfl | rfl
    · exact hg
    · exact hv
    · exact hr
  · simp

/-- C4 (amended): for group, version, resource containing no `/` and none
equal to the wildcard token, splitting the joined triple returns the triple
exactly; splitting any string without exactly three `/`-separated segments
returns the all-empty triple. -/
theorem split_join_roundtrip :
    (∀ g v r : String,
      ('/' : Char) ∉ g.data → ('/' : Char) ∉ v.data → ('/' : Char) ∉ r.data →
      g ≠ "*" → v ≠ "*" → r ≠ "*" →
      StringToResourceGroup (JoinResourceTriplets g v r) = (g, v, r)) ∧
    (∀ s : String, (goSplitSlash s).length ≠ 3 → StringToResourceGroup s = ("", "", "")) := by
  constructor
  · intro g v r hg hv hr sg sv sr
    unfold StringToResourceGroup
    rw [goSplitSlash_join g v r hg hv hr]
    simp [sg, sv, sr]
  · intro s h
    unfold StringToResourceGroup
    rcases hl : goSplitSlash s with _ | ⟨a, _ | ⟨b, _ | ⟨c, _ | ⟨d, t⟩⟩⟩⟩
    · rfl
    · rfl
    · rfl
    · rw [hl] at h
      simp at h
    · rfl

/-- C4 witness: the round trip on `apps/v1/deployments` and the malformed
case on a single-segment string. -/
theorem split_join_roundtrip_witness :
    StringToResourceGroup (JoinResourceTriplets ("apps") ("v1") ("deployments")) =
      ("apps", "v1", "deployments") ∧
    StringToResourceGroup ("only-one-segment") = ("", "", "") :=
  ⟨split_join_roundtrip.1 ("apps") ("v1") ("deployments")
      (by decide) (by decide) (by decide) (by decide) (by decide) (by decide),
   split_join_roundtrip.2 ("only-one-segment") (by decide)⟩

/-- C4 (counterexample to the claim as stated): `*` contains no `/`, yet the
round trip rewrites it to the empty string instead of returning it. -/
theorem split_join_star_cex :
    StringToResourceGroup (JoinResourceTriplets ("*") ("v1") ("pods")) = ("", "v1", "pods") ∧
    (("" : String), ("v1" : String), ("pods" : String)) ≠ (("*" : String), "v1", "pods") :=
  ⟨by rfl, by decide⟩

/-- C7: `ResourceGroupToSlice` first rewrites each `*` field to the empty
string; whenever the (possibly rewritten) resource is not a known Kubernetes
kind it returns exactly one element, the literal joined triple. -/
theorem resourceGroupToSlice_literal (st : RegistryState) (group version resource : String)
    (h : IsKindKubernetes st (if resource = "*" then "" else resource) = false) :
    ResourceGroupToSlice st group version resource =
      [JoinResourceTriplets (if group = "*" then "" else group)
        (if version = "*" then "" else version)
        (if resource = "*" then "" else resource)] := by
  unfold ResourceGroupToSlice
  simp [h]

/-- C7 witness: a custom resource name unknown to the empty registry passes
through literally, with the wildcard group rewritten to empty. -/
theorem resourceGroupToSlice_literal_witness :
    ResourceGroupToSlice emptyRegistry ("*") ("v1") ("mycrd") =
      [JoinResourceTriplets (if ("*" : String) = "*" then "" else "*")
        (if ("v1" : String) = "*" then "" else "v1")
        (if ("mycrd" : String) = "*" then "" else "mycrd")] :=
  resourceGroupToSlice_literal emptyRegistry ("*") ("v1") ("mycrd") (by decide)

/-- C8: `IsTypeWorkload` holds exactly for a non-nil document carrying an
`apiVersion` key and a `kind` key whose value is a string accepted by
`IsKindKubernetes`; nil documents, missing keys and non-string kinds are
rejected. -/
theorem isTypeWorkload_iff (st : RegistryState) (object : Option (List (String × GoValue))) :
    IsTypeWorkload st object = true ↔
      ∃ m, object = some m ∧ (lookupGo m ("apiVersion")).isSome = true ∧
        ∃ k, lookupGo m ("kind") = some (GoValue.str k) ∧ IsKindKubernetes st k = true := by
  cases object with
  | none => simp [IsTypeWorkload]
  | some m =>
    cases hav : lookupGo m ("apiVersion") with
    | none => simp [IsTypeWorkload, hav]
    | some av =>
      cases hk : lookupGo m ("kind") with
      | none => simp [IsTypeWorkload, hav, hk]
      | some kv =>
        cases kv with
        | str k => simp [IsTypeWorkload, hav, hk]
        | num n => simp [IsTypeWorkload, hav, hk]
        | boolVal b => simp [IsTypeWorkload, hav, hk]
        | null => simp [IsTypeWorkload, hav, hk]

theorem lookupGo_append_of_some {α : Type} {m m' : List (String × α)} {k : String} {v : α}
    (h : lookupGo m k = some v) : lookupGo (m ++ m') k = some v := by
  unfold lookupGo at h ⊢
  rw [List.find?_append]
  cases hf : List.find? (fun p => p.1 == k) m with
  | none => rw [hf] at h; simp at h
  | some p =>
    rw [hf] at h
    simpa using h

theorem lookupGo_processAPIResource {g v : String} {st : RegistryState} {a : APIResource}
    {n gv : String} (h : lookupGo st.ResourceGroupMapping n = some gv) :
    lookupGo (processAPIResource g v st a).ResourceGroupMapping n = some gv := by
  unfold processAPIResource
  split
  · exact h
  · split
    · exact h
    · exact lookupGo_append_of_some h

theorem lookupGo_foldl_processAPIResource {g v : String} (l : List APIResource)
    (st : RegistryState) {n gv : String} (h : lookupGo st.ResourceGroupMapping n = some gv) :
    lookupGo ((l.foldl (processAPIResource g v) st).ResourceGroupMapping) n = some gv := by
  induction l generalizing st with
  | nil => exact h
  | cons a t ih => exact ih _ (lookupGo_processAPIResource h)

theorem lookupGo_processResourceList {st : RegistryState} {e : Option APIResourceList}
    {n gv : String} (h : lookupGo st.ResourceGroupMapping n = some gv) :
    lookupGo (processResourceList st e).ResourceGroupMapping n = some gv := by
  cases e with
  | none => exact h
  | some rl =>
    by_cases hemp : rl.APIResources = []
    · have he : processResourceList st (some rl) = st := by
        simp [processResourceList, hemp]
      rw [he]
      exact h
    · cases hparse : ParseGroupVersion rl.GroupVersion with
      | error msg =>
        have he : processResourceList st (some rl) = st := by
          simp [processResourceList, hemp, hparse]
        rw [he]
        exact h
      | ok gvp =>
        by_cases hig : StringInSlice ignoreGroups gvp.Group = ValueNotFound
        · have he : processResourceList st (some rl) =
              rl.APIResources.foldl (processAPIResource gvp.Group gvp.Version) st := by
            simp [processResourceList, hemp, hparse, hig]
          rw [he]
          exact lookupGo_foldl_processAPIResource _ _ h
        · have he : processResourceList st (some rl) = st := by
            simp [processResourceList, hemp, hparse, hig]
          rw [he]
          exact h

theorem lookupGo_setMapResources (rl : List (Option APIResourceList)) {st : RegistryState}
    {n gv : String} (h : lookupGo st.ResourceGroupMapping n = some gv) :
    lookupGo (setMapResources st rl).ResourceGroupMapping n = some gv := by
  induction rl generalizing st with
  | nil => exact h
  | cons x t ih => exact ih (lookupGo_processResourceList h)

/-- C5: first-seen wins — a resource name already bound in the registry map
keeps its group/version through any further population, and processing a
descriptor whose name is already bound changes none of the three
structures. -/
theorem setMapResources_first_seen_wins (st : RegistryState)
    (rl : List (Option APIResourceList)) (n gv group version : String) (a : APIResource) :
    (lookupGo st.ResourceGroupMapping n = some gv →
      lookupGo (setMapResources st rl).ResourceGroupMapping n = some gv) ∧
    ((lookupGo st.ResourceGroupMapping a.Name).isSome = true →
      processAPIResource group version st a = st) := by
  constructor
  · intro h
    exact lookupGo_setMapResources rl h
  · intro h
    unfold processAPIResource
    split
    · rfl
    · split
      · rfl
      · rename_i hnone
        rw [hnone] at h
        simp at h

/-- C5 witness: a later `apps/v1` descriptor for `pods` neither overrides the
registered `/v1` mapping nor changes the state. -/
theorem setMapResources_first_seen_wins_witness :
    lookupGo (setMapResources ⟨[("pods", "/v1")], ["/v1/pods"], []⟩
        [some ⟨"apps/v1", [⟨"pods", true, ["get"]⟩]⟩]).ResourceGroupMapping ("pods") =
      some ("/v1") ∧
    processAPIResource ("apps") ("v1") ⟨[("pods", "/v1")], ["/v1/pods"], []⟩
        ⟨"pods", true, ["get"]⟩ =
      ⟨[("pods", "/v1")], ["/v1/pods"], []⟩ :=
  ⟨(setMapResources_first_seen_wins ⟨[("pods", "/v1")], ["/v1/pods"], []⟩
      [some ⟨"apps/v1", [⟨"pods", true, ["get"]⟩]⟩] ("pods") ("/v1") ("apps") ("v1")
      ⟨"pods", true, ["get"]⟩).1 (by rfl),
   (setMapResources_first_seen_wins ⟨[("pods", "/v1")], ["/v1/pods"], []⟩
      [some ⟨"apps/v1", [⟨"pods", true, ["get"]⟩]⟩] ("pods") ("/v1") ("apps") ("v1")
      ⟨"pods", true, ["get"]⟩).2 (by rfl)⟩

theorem processAPIResource_spec (g v : String) (st : RegistryState) (a : APIResource) :
    (∀ p ∈ (processAPIResource g v st a).ResourceGroupMapping,
       p ∈ st.ResourceGroupMapping ∨ (a.Verbs ≠ [] ∧ p = (a.Name, JoinGroupVersion g v))) ∧
    (∀ t ∈ (processAPIResource g v st a).ResourceNamesapcedScope,
       t ∈ st.ResourceNamesapcedScope ∨ (a.Verbs ≠ [] ∧ t = JoinResourceTriplets g v a.Name)) ∧
    (∀ t ∈ (processAPIResource g v st a).ResourceClusterScope,
       t ∈ st.ResourceClusterScope ∨ (a.Verbs ≠ [] ∧ t = JoinResourceTriplets g v a.Name)) := by
  by_cases hv : a.Verbs = []
  · have he : processAPIResource g v st a = st := by
      simp [processAPIResource, hv]
    rw [he]
    exact ⟨fun p hp => Or.inl hp, fun t ht => Or.inl ht, fun t ht => Or.inl ht⟩
  · cases hl : lookupGo st.ResourceGroupMapping a.Name with
    | some w =>
      have he : processAPIResource g v st a = st := by
        simp [processAPIResource, hv, hl]
      rw [he]
      exact ⟨fun p hp => Or.inl hp, fun t ht => Or.inl ht, fun t ht => Or.inl ht⟩
    | none =>
      have he : processAPIResource g v st a =
          { ResourceGroupMapping := st.ResourceGroupMapping ++ [(a.Name, JoinGroupVersion g v)]
            ResourceNamesapcedScope :=
              if a.Namespaced then
                st.ResourceNamesapcedScope ++ [JoinResourceTriplets g v a.Name]
              else st.ResourceNamesapcedScope
            ResourceClusterScope :=
              if a.Namespaced then st.ResourceClusterScope
              else st.ResourceClusterScope ++ [JoinResourceTriplets g v a.Name] } := by
        simp [processAPIResource, hv, hl]
      rw [he]
      refine ⟨?_, ?_, ?_⟩
      · intro p hp
        rcases List.mem_append.mp hp with h | h
        · exact Or.inl h
        · exact Or.inr ⟨hv, by simpa using h⟩
      · intro t ht
        have ht' : t ∈ (if a.Namespaced then
            st.ResourceNamesapcedScope ++ [JoinResourceTriplets g v a.Name]
          else st.ResourceNamesapcedScope) := ht
        by_cases hn : a.Namespaced
        · rw [if_pos hn] at ht'
          rcases List.mem_append.mp ht' with h | h
          · exact Or.inl h
          · exact Or.inr ⟨hv, by simpa using h⟩
        · rw [if_neg hn] at ht'
          exact Or.inl ht'
      · intro t ht
        have ht' : t ∈ (if a.Namespaced then st.ResourceClusterScope
          else st.ResourceClusterScope ++ [JoinResourceTriplets g v a.Name]) := ht
        by_cases hn : a.Namespaced
        · rw [if_pos hn] at ht'
          exact Or.inl ht'
        · rw [if_neg hn] at ht'
          rcases List.mem_append.mp ht' with h | h
          · exact Or.inl h
          · exact Or.inr ⟨hv, by simpa using h⟩

theorem foldl_processAPIResource_spec (g v : String) (l : List APIResource)
    (st : RegistryState) :
    (∀ p ∈ (l.foldl (processAPIResource g v) st).ResourceGroupMapping,
       p ∈ st.ResourceGroupMapping ∨
         ∃ a, a ∈ l ∧ a.Verbs ≠ [] ∧ p = (a.Name, JoinGroupVersion g v)) ∧
    (∀ t ∈ (l.foldl (processAPIResource g v) st).ResourceNamesapcedScope,
       t ∈ st.ResourceNamesapcedScope ∨
         ∃ a, a ∈ l ∧ a.Verbs ≠ [] ∧ t = JoinResourceTriplets g v a.Name) ∧
    (∀ t ∈ (l.foldl (processAPIResource g v) st).ResourceClusterScope,
       t ∈ st.ResourceClusterScope ∨
         ∃ a, a ∈ l ∧ a.Verbs ≠ [] ∧ t = JoinResourceTriplets g v a.Name) := by
  induction l generalizing st with
  | nil => exact ⟨fun p hp => Or.inl hp, fun t ht => Or.inl ht, fun t ht => Or.inl ht⟩
  | cons b bs ih =>
    obtain ⟨ih1, ih2, ih3⟩ := ih (processAPIResource g v st b)
    obtain ⟨s1, s2, s3⟩ := processAPIResource_spec g v st b
    refine ⟨?_, ?_, ?_⟩
    · intro p hp
      rcases ih1 p hp with h | ⟨a, ha, hv2, he⟩
      · rcases s1 p h with h' | ⟨hb, he⟩
        · exact Or.inl h'
        · exact Or.inr ⟨b, List.mem_cons_self _ _, hb, he⟩
      · exact Or.inr ⟨a, List.mem_cons_of_mem _ ha, hv2, he⟩
    · intro t ht
      rcases ih2 t ht with h | ⟨a, ha, hv2, he⟩
      · rcases s2 t h with h' | ⟨hb, he⟩
        · exact Or.inl h'
        · exact Or.inr ⟨b, List.mem_cons_self _ _, hb, he⟩
      · exact Or.inr ⟨a, List.mem_cons_of_mem _ ha, hv2, he⟩
    · intro t ht
      rcases ih3 t ht with h | ⟨a, ha, hv2, he⟩
      · rcases s3 t h with h' | ⟨hb, he⟩
        · exact Or.inl h'
        · exact Or.inr ⟨b, List.mem_cons_self _ _, hb, he⟩
      · exact Or.inr ⟨a, List.mem_cons_of_mem _ ha, hv2, he⟩

theorem goodEntry_cons_of_tail {x : Option APIResourceList} {rl : List (Option APIResourceList)}
    {p : String × String} (h : goodEntry rl p) : goodEntry (x :: rl) p := by
  obtain ⟨l, hm, rest⟩ := h
  exact ⟨l, List.mem_cons_of_mem _ hm, rest⟩

theorem goodEntry_cons_of_head {x : Option APIResourceList} {rl : List (Option APIResourceList)}
    {p : String × String} (h : goodEntry [x] p) : goodEntry (x :: rl) p := by
  obtain ⟨l, hm, rest⟩ := h
  rw [List.mem_singleton] at hm
  cases hm
  exact ⟨l, List.mem_cons_self _ _, rest⟩

theorem goodTriple_cons_of_tail {x : Option APIResourceList} {rl : List (Option APIResourceList)}
    {t : String} (h : goodTriple rl t) : goodTriple (x :: rl) t := by
  obtain ⟨l, hm, rest⟩ := h
  exact ⟨l, List.mem_cons_of_mem _ hm, rest⟩

theorem goodTriple_cons_of_head {x : Option APIResourceList} {rl : List (Option APIResourceList)}
    {t : String} (h : goodTriple [x] t) : goodTriple (x :: rl) t := by
  obtain ⟨l, hm, rest⟩ := h
  rw [List.mem_singleton] at hm
  cases hm
  exact ⟨l, List.mem_cons_self _ _, rest⟩

theorem processResourceList_spec (st : RegistryState) (x : Option APIResourceList) :
    (∀ p ∈ (processResourceList st x).ResourceGroupMapping,
       p ∈ st.ResourceGroupMapping ∨ goodEntry [x] p) ∧
    (∀ t ∈ (processResourceList st x).ResourceNamesapcedScope,
       t ∈ st.ResourceNamesapcedScope ∨ goodTriple [x] t) ∧
    (∀ t ∈ (processResourceList st x).ResourceClusterScope,
       t ∈ st.ResourceClusterScope ∨ goodTriple [x] t) := by
  cases x with
  | none => exact ⟨fun p hp => Or.inl hp, fun t ht => Or.inl ht, fun t ht => Or.inl ht⟩
  | some rl =>
    by_cases hemp : rl.APIResources = []
    · have he : processResourceList st (some rl) = st := by
        simp [processResourceList, hemp]
      rw [he]
      exact ⟨fun p hp => Or.inl hp, fun t ht => Or.inl ht, fun t ht => Or.inl ht⟩
    · cases hparse : ParseGroupVersion rl.GroupVersion with
      | error msg =>
        have he : processResourceList st (some rl) = st := by
          simp [processResourceList, hemp, hparse]
        rw [he]
        exact ⟨fun p hp => Or.inl hp, fun t ht => Or.inl ht, fun t ht => Or.inl ht⟩
      | ok gvp =>
        by_cases hig : StringInSlice ignoreGroups gvp.Group = ValueNotFound
        · have he : processResourceList st (some rl) =
              rl.APIResources.foldl (processAPIResource gvp.Group gvp.Version) st := by
            simp [processResourceList, hemp, hparse, hig]
          rw [he]
          obtain ⟨h1, h2, h3⟩ :=
            foldl_processAPIResource_spec gvp.Group gvp.Version rl.APIResources st
          refine ⟨?_, ?_, ?_⟩
          · intro p hp
            rcases h1 p hp with h | ⟨a, ha, hv2, heq⟩
            · exact Or.inl h
            · exact Or.inr
                ⟨rl, List.mem_singleton.mpr rfl, gvp.Group, gvp.Version, hparse, hig,
                  a, ha, hv2, heq⟩
          · intro t ht
            rcases h2 t ht with h | ⟨a, ha, hv2, heq⟩
            · exact Or.inl h
            · exact Or.inr
                ⟨rl, List.mem_singleton.mpr rfl, gvp.Group, gvp.Version, hparse, hig,
                  a, ha, hv2, heq⟩
          · intro t ht
            rcases h3 t ht with h | ⟨a, ha, hv2, heq⟩
            · exact Or.inl h
            · exact Or.inr
                ⟨rl, List.mem_singleton.mpr rfl, gvp.Group, gvp.Version, hparse, hig,
                  a, ha, hv2, heq⟩
        · have he : processResourceList st (some rl) = st := by
            simp [processResourceList, hemp, hparse, hig]
          rw [he]
          exact ⟨fun p hp => Or.inl hp, fun t ht => Or.inl ht, fun t ht => Or.inl ht⟩

theorem setMapResources_spec (rl : List (Option APIResourceList)) (st : RegistryState) :
    (∀ p ∈ (setMapResources st rl).ResourceGroupMapping,
       p ∈ st.ResourceGroupMapping ∨ goodEntry rl p) ∧
    (∀ t ∈ (setMapResources st rl).ResourceNamesapcedScope,
       t ∈ st.ResourceNamesapcedScope ∨ goodTriple rl t) ∧
    (∀ t ∈ (setMapResources st rl).ResourceClusterScope,
       t ∈ st.ResourceClusterScope ∨ goodTriple rl t) := by
  induction rl generalizing st with
  | nil => exact ⟨fun p hp => Or.inl hp, fun t ht => Or.inl ht, fun t ht => Or.inl ht⟩
  | cons x xs ih =>
    obtain ⟨s1, s2, s3⟩ := processResourceList_spec st x
    obtain ⟨i1, i2, i3⟩ := ih (processResourceList st x)
    refine ⟨?_, ?_, ?_⟩
    · intro p hp
      rcases i1 p hp with h | h
      · rcases s1 p h with h' | h'
        · exact Or.inl h'
        · exact Or.inr (goodEntry_cons_of_head h')
      · exact Or.inr (goodEntry_cons_of_tail h)
    · intro t ht
      rcases i2 t ht with h | h
      · rcases s2 t h with h' | h'
        · exact Or.inl h'
        · exact Or.inr (goodTriple_cons_of_head h')
      · exact Or.inr (goodTriple_cons_of_tail h)
    · intro t ht
      rcases i3 t ht with h | h
      · rcases s3 t h with h' | h'
        · exact Or.inl h'
        · exact Or.inr (goodTriple_cons_of_head h')
      · exact Or.inr (goodTriple_cons_of_tail h)

/-- C6: ingestion filtering — the ignored-group list is exactly
`["metrics.k8s.io"]`, and after populating the empty registry every entry of
the registry map and every member of the namespaced- and cluster-scope sets
stems from a snapshot descriptor whose group parsed, whose group is not
ignored, and whose verb list is non-empty; descriptors from ignored groups or
with empty verbs contribute nothing, whatever their namespaced flag. -/
theorem setMapResources_filtering (rl : List (Option APIResourceList)) :
    ignoreGroups = ["metrics.k8s.io"] ∧
    (∀ p ∈ (setMapResources emptyRegistry rl).ResourceGroupMapping, goodEntry rl p) ∧
    (∀ t ∈ (setMapResources emptyRegistry rl).ResourceNamesapcedScope, goodTriple rl t) ∧
    (∀ t ∈ (setMapResources emptyRegistry rl).ResourceClusterScope, goodTriple rl t) := by
  obtain ⟨h1, h2, h3⟩ := setMapResources_spec rl emptyRegistry
  refine ⟨rfl, ?_, ?_, ?_⟩
  · intro p hp
    rcases h1 p hp with h | h
    · simp [emptyRegistry] at h
    · exact h
  · intro t ht
    rcases h2 t ht with h | h
    · simp [emptyRegistry] at h
    · exact h
  · intro t ht
    rcases h3 t ht with h | h
    · simp [emptyRegistry] at h
    · exact h

/-- C6 witness: the `pods` entry produced from a well-formed `v1` snapshot
descriptor has the required provenance. -/
theorem setMapResources_filtering_witness :
    goodEntry [some ⟨"v1", [⟨"pods", true, ["get"]⟩]⟩] ("pods", "/v1") :=
  (setMapResources_filtering [some ⟨"v1", [⟨"pods", true, ["get"]⟩]⟩]).2.1
    ("pods", "/v1") (by decide)
